import Mathlib

/-!
# Verification of the ALE safety wrapper (`src/capi.rs`)

Shallow embedding of the Rust FFI wrapper around the Arcade Learning
Environment.  The native engine behind the `extern "C"` block is an external
collaborator; `Ale.EmuState` models the observable state its capability
surface exposes, and each FFI call is modelled as a pure function on it.
The wrapper's own logic (the `INSTANCE_EXISTS` singleton guard, CString
marshalling, query-then-fill buffer management, clone/restore snapshots and
the `Encodable`/`Decodable` serialization adapter) is translated line by
line from the Rust source.  Stateful pieces (the process-wide flag, the
file system seen by `File::open`/`File::create`) are passed explicitly.
A `panic!`/failed `assert!`/`unwrap` on a violated precondition is
modelled as the `none` branch of an `Option`-returning function.
-/

namespace Ale

/-- Observable state of the native emulator engine (`AleInterface` in
`capi.rs`).  `c_int` quantities that are counters are modelled as `Int`
(`i32` range is never exercised arithmetically); buffer sizes reported by
the engine are the sizes of its internal buffers, so the size queries
(`getLegalActionSize`, `getRAMSize`) are modelled as the lengths of those
buffers; `c_float` configuration values are carried opaquely by their bit
pattern (`Nat`).  Configuration tables are association lists keyed by the
C string the wrapper passes in. -/
structure EmuState where
  frame : Int
  episodeFrame : Int
  livesLeft : Int
  isOver : Bool
  width : Nat
  height : Nat
  screenPix : List Nat
  screenRgbPix : List Nat
  ramBytes : List Nat
  legalActs : List Int
  minimalActs : List Int
  sConf : List (String × List Nat)
  bConf : List (String × Int)
  iConf : List (String × Int)
  fConf : List (String × Nat)
  deriving DecidableEq

/-- The game-logic part of the engine state captured by the native
`cloneState` (as opposed to `cloneSystemState`, which captures the whole
machine state). -/
structure DynState where
  frame : Int
  episodeFrame : Int
  livesLeft : Int
  isOver : Bool
  screenPix : List Nat
  screenRgbPix : List Nat
  ramBytes : List Nat
  deriving DecidableEq

/-- Native `cloneState`: project out the game-logic components. -/
def EmuState.dynOf (e : EmuState) : DynState :=
  ⟨e.frame, e.episodeFrame, e.livesLeft, e.isOver, e.screenPix,
   e.screenRgbPix, e.ramBytes⟩

/-- Native `restoreState`: write a game-logic snapshot back into the
engine, leaving the remaining (machine/configuration) components alone. -/
def EmuState.restoreDyn (e : EmuState) (d : DynState) : EmuState :=
  { e with
    frame := d.frame, episodeFrame := d.episodeFrame,
    livesLeft := d.livesLeft, isOver := d.isOver,
    screenPix := d.screenPix, screenRgbPix := d.screenRgbPix,
    ramBytes := d.ramBytes }

/-- Engine state produced by the native `ALE_new`. -/
def emuInit : EmuState :=
  ⟨0, 0, 0, false, 0, 0, [], [], [], [], [], [], [], [], []⟩

/-- Effect of the native `loadROM` on the engine state.  How the engine
reinitializes its emulation state from the ROM image is unspecified at
this layer (spec §4.2 open question); no claim depends on it, so the
observable model keeps the pre-load state (in particular configuration
set before loading survives, which is the one documented guarantee). -/
def romLoad (e : EmuState) (_rom : List Nat) : EmuState := e

/-! ### CString and UTF-8 marshalling (`std::ffi`, `std::str`) -/

/-- UTF-8 encoding of a Unicode code point (`char` in Rust). -/
def charUtf8 (c : Nat) : List Nat :=
  if c ≤ 0x7F then [c]
  else if c ≤ 0x7FF then [0xC0 + c / 64, 0x80 + c % 64]
  else if c ≤ 0xFFFF then [0xE0 + c / 4096, 0x80 + c / 64 % 64, 0x80 + c % 64]
  else [0xF0 + c / 262144, 0x80 + c / 4096 % 64, 0x80 + c / 64 % 64, 0x80 + c % 64]

/-- The UTF-8 bytes of a Rust `String`/`&str`. -/
def strBytes (s : String) : List Nat :=
  (s.data.map (fun c => charUtf8 c.toNat)).flatten

/-- `CString::new(s)` fails (`NulError`, unwrapped to a panic throughout
the source) exactly when the byte representation contains a NUL byte. -/
def hasNul (s : String) : Bool :=
  (strBytes s).contains 0

/-- One step of the UTF-8 validity automaton used by `str::from_utf8`.
State `(0, _, _)` expects a lead byte; state `(k+1, lo, hi)` expects a
continuation byte in `[lo, hi]` followed by `k` generic continuations.
The lead-byte table excludes overlong encodings, surrogates and code
points above `U+10FFFF`, exactly as Rust's validator does. -/
def utf8Step (st : Nat × Nat × Nat) (b : Nat) : Option (Nat × Nat × Nat) :=
  match st with
  | (0, _, _) =>
    if b ≤ 0x7F then some (0, 0, 0)
    else if 0xC2 ≤ b ∧ b ≤ 0xDF then some (1, 0x80, 0xBF)
    else if b = 0xE0 then some (2, 0xA0, 0xBF)
    else if b = 0xED then some (2, 0x80, 0x9F)
    else if 0xE1 ≤ b ∧ b ≤ 0xEF then some (2, 0x80, 0xBF)
    else if b = 0xF0 then some (3, 0x90, 0xBF)
    else if b = 0xF4 then some (3, 0x80, 0x8F)
    else if 0xF1 ≤ b ∧ b ≤ 0xF3 then some (3, 0x80, 0xBF)
    else none
  | (k + 1, lo, hi) =>
    if lo ≤ b ∧ b ≤ hi then some (k, 0x80, 0xBF) else none

/-- Run the UTF-8 automaton over a byte sequence. -/
def utf8Run (l : List Nat) : Option (Nat × Nat × Nat) :=
  l.foldlM utf8Step (0, 0, 0)

/-- `str::from_utf8(l).is_ok()`: the automaton accepts and is not in the
middle of a multi-byte sequence. -/
def validUtf8 (l : List Nat) : Bool :=
  match utf8Run l with
  | some (0, _, _) => true
  | _ => false

/-- `CStr::from_ptr(p).to_bytes()`: the bytes of a C string up to (and
excluding) the first NUL terminator. -/
def cstrBytes (bs : List Nat) : List Nat :=
  bs.takeWhile (fun b => b ≠ 0)

/-- Association-list lookup with a default, modelling the native engine's
keyed configuration fetch (unknown-key behaviour is the engine's concern;
the model returns the default). -/
def lookupD {β : Type} (m : List (String × β)) (key : String) (d : β) : β :=
  ((m.find? (fun e => e.1 == key)).map (fun e => e.2)).getD d

/-! ### `ALE` (engine session) -/

/-- `pub struct ALE { p: *mut AleInterface }`: exclusive owner of one
native handle, modelled by the engine state behind it. -/
structure ALE where
  emu : EmuState
  deriving DecidableEq

/-- `ALE::new`.  `flag` is the process-wide `INSTANCE_EXISTS` atomic.
`assert!(!INSTANCE_EXISTS.swap(true, Ordering::SeqCst), ALE_ERROR)`
panics (modelled `none`) when the flag was already set; otherwise the
flag is now set and a fresh native handle (`ALE_new`) is owned. -/
def ALE.new (flag : Bool) : Option (Bool × ALE) :=
  if flag then none
  else some (true, ⟨emuInit⟩)

/-- `ALE::get_string`.  `none` models a panic: `CString::new(key).unwrap()`
on a NUL byte in the key, or `from_utf8(cstr.to_bytes()).unwrap()` when
the engine's reply is not valid UTF-8.  The Rust function returns the
validated bytes as `&str`; the model returns that byte list. -/
def ALE.get_string (a : ALE) (key : String) : Option (List Nat) :=
  if hasNul key then none
  else
    let bs := cstrBytes (lookupD a.emu.sConf key [])
    if validUtf8 bs then some bs else none

/-- `ALE::get_bool`: `getBool(self.p, key) != 0`. -/
def ALE.get_bool (a : ALE) (key : String) : Option Bool :=
  if hasNul key then none
  else some (lookupD a.emu.bConf key 0 != 0)

/-- `ALE::get_int`. -/
def ALE.get_int (a : ALE) (key : String) : Option Int :=
  if hasNul key then none
  else some (lookupD a.emu.iConf key 0)

/-- `ALE::get_float` (the `c_float` payload is its bit pattern). -/
def ALE.get_float (a : ALE) (key : String) : Option Nat :=
  if hasNul key then none
  else some (lookupD a.emu.fConf key 0)

/-- `ALE::set_string`: both the key and the value are marshalled through
`CString::new(..).unwrap()` (key first), then handed to the native
`setString` unchanged. -/
def ALE.set_string (a : ALE) (key val : String) : Option ALE :=
  if hasNul key then none
  else if hasNul val then none
  else some ⟨{ a.emu with sConf := (key, strBytes val) :: a.emu.sConf }⟩

/-- `ALE::set_bool`: the native receives `val as c_int`. -/
def ALE.set_bool (a : ALE) (key : String) (val : Bool) : Option ALE :=
  if hasNul key then none
  else some ⟨{ a.emu with bConf := (key, if val then 1 else 0) :: a.emu.bConf }⟩

/-- `ALE::set_int`. -/
def ALE.set_int (a : ALE) (key : String) (val : Int) : Option ALE :=
  if hasNul key then none
  else some ⟨{ a.emu with iConf := (key, val) :: a.emu.iConf }⟩

/-- `ALE::set_float`. -/
def ALE.set_float (a : ALE) (key : String) (val : Nat) : Option ALE :=
  if hasNul key then none
  else some ⟨{ a.emu with fConf := (key, val) :: a.emu.fConf }⟩

/-! ### File system (`std::fs`) -/

/-- Files visible to `File::open` / `Path::exists` / `File::create`,
as an association list from path to contents. -/
abbrev FS : Type := List (String × List Nat)

/-- `File::open(path)` + `read_to_end`. -/
def fsRead (fs : FS) (path : String) : Option (List Nat) :=
  (fs.find? (fun e => e.1 == path)).map (fun e => e.2)

/-- `Path::exists`. -/
def fsExists (fs : FS) (path : String) : Bool :=
  (fsRead fs path).isSome

/-- `File::create(path)` + `write_all(bytes)`. -/
def fsWrite (fs : FS) (path : String) (bytes : List Nat) : FS :=
  (path, bytes) :: fs

/-! ### `Game` (game session) -/

/-- `pub struct Game { ale: ALE, rom_path: String }`. -/
structure Game where
  ale : ALE
  rom_path : String
  deriving DecidableEq

/-- `ALE::load_rom`: consumes the `ALE`, marshals the file name through
`CString::new(..).unwrap()` (`none` on a NUL byte), invokes the native
`loadROM` and wraps the engine in a `Game` carrying the ROM path.  The
native behaviour when no readable ROM exists at the path is unspecified
(spec §4.2 open question) and modelled as `none`. -/
def ALE.load_rom (fs : FS) (a : ALE) (file_name : String) : Option Game :=
  if hasNul file_name then none
  else
    match fsRead fs file_name with
    | none => none
    | some rom => some ⟨⟨romLoad a.emu rom⟩, file_name⟩

/-- `Action(pub i32)`. -/
structure Action where
  val : Int
  deriving DecidableEq

/-- `Game::frame_number` (`getFrameNumber`). -/
def Game.frame_number (g : Game) : Int := g.ale.emu.frame

/-- `Game::lives` (native `lives`). -/
def Game.lives (g : Game) : Int := g.ale.emu.livesLeft

/-- `Game::episode_frame_number` (`getEpisodeFrameNumber`). -/
def Game.episode_frame_number (g : Game) : Int := g.ale.emu.episodeFrame

/-- `Game::is_over` (`game_over(..) != 0`). -/
def Game.is_over (g : Game) : Bool := g.ale.emu.isOver

/-- `Game::screen_dimensions` (`getScreenWidth`, `getScreenHeight`). -/
def Game.screen_dimensions (g : Game) : Nat × Nat :=
  (g.ale.emu.width, g.ale.emu.height)

/-- `Game::ram_size` (`getRAMSize` reports the size of the engine's RAM
buffer). -/
def Game.ram_size (g : Game) : Nat := g.ale.emu.ramBytes.length

/-- `getLegalActionSize` reports the length of the engine's legal-action
vector (the same internal vector `getLegalActionSet` copies out). -/
def getLegalActionSize (e : EmuState) : Nat := e.legalActs.length

/-- `getMinimalActionSize`. -/
def getMinimalActionSize (e : EmuState) : Nat := e.minimalActs.length

/-! ### Raw buffers (`Vec<u8>` with `set_len` / `reserve_exact`) -/

/-- A write through a raw pointer: the callee overwrites the first
`src.length` cells of the allocation `mem` and leaves the rest. -/
def memWrite {α : Type} (src mem : List α) : List α :=
  src ++ mem.drop src.length

/-- Model of a Rust `Vec<u8>`: the logical contents (`data`, whose length
is the vector's `len`) plus the allocation size `cap`. -/
structure ByteBuf where
  data : List Nat
  cap : Nat
  deriving DecidableEq

/-- `Vec::reserve_exact(additional)`: a no-op when the spare capacity
(`capacity - len`) already covers `additional` more elements, otherwise
the allocation grows to exactly `len + additional` — this is the
guarantee Rust documents (capacity ≥ `len + additional` afterwards). -/
def ByteBuf.reserveExact (b : ByteBuf) (additional : Nat) : ByteBuf :=
  if additional ≤ b.cap - b.data.length then b
  else { b with cap := b.data.length + additional }

/-- `set_len(n)` followed by a native fill writing `src` from the start of
the allocation.  `set_len` has the safety precondition `n ≤ capacity`;
the source calls it inside `unsafe` without checking, so a violated
precondition (the logical length would exceed the allocation and the
native write would overflow the heap) is modelled as `none`.  Cells
newly exposed by `set_len` are uninitialized and modelled as `0`. -/
def ByteBuf.setLenFill (b : ByteBuf) (n : Nat) (src : List Nat) : Option ByteBuf :=
  if n ≤ b.cap then
    some ⟨(memWrite src ((b.data ++ List.replicate (n - b.data.length) 0).take n)).take n,
          b.cap⟩
  else none

/-- `Game::screen_in_buf`: queries the dimensions, reserves
`width*height - capacity` more elements when the capacity is short, then
`set_len(width*height)` and the native `getScreen` fill. -/
def Game.screen_in_buf (g : Game) (buf : ByteBuf) : Option ByteBuf :=
  let needed := g.ale.emu.width * g.ale.emu.height
  let buf1 := if buf.cap < needed then buf.reserveExact (needed - buf.cap) else buf
  buf1.setLenFill needed g.ale.emu.screenPix

/-- `Game::screen`: `Vec::with_capacity(width*height)` then
`screen_in_buf` (whose failing branch is unreachable here, since the
fresh capacity equals the requirement). -/
def Game.screen (g : Game) : List Nat :=
  ((Game.screen_in_buf g ⟨[], g.ale.emu.width * g.ale.emu.height⟩).getD ⟨[], 0⟩).data

/-- `Game::screen_rgb_in_buf` (same contract as `screen_in_buf`, filled by
`getScreenRGB`). -/
def Game.screen_rgb_in_buf (g : Game) (buf : ByteBuf) : Option ByteBuf :=
  let needed := g.ale.emu.width * g.ale.emu.height
  let buf1 := if buf.cap < needed then buf.reserveExact (needed - buf.cap) else buf
  buf1.setLenFill needed g.ale.emu.screenRgbPix

/-- `Game::screen_rgb`. -/
def Game.screen_rgb (g : Game) : List Nat :=
  ((Game.screen_rgb_in_buf g ⟨[], g.ale.emu.width * g.ale.emu.height⟩).getD ⟨[], 0⟩).data

/-- `Game::ram_in_buf`: same reserve/`set_len` pattern with `ram_size()`
and the native `getRAM` fill. -/
def Game.ram_in_buf (g : Game) (buf : ByteBuf) : Option ByteBuf :=
  let size := Game.ram_size g
  let buf1 := if buf.cap < size then buf.reserveExact (size - buf.cap) else buf
  buf1.setLenFill size g.ale.emu.ramBytes

/-- `Game::ram`: `Vec::with_capacity(ram_size())` then `ram_in_buf`. -/
def Game.ram (g : Game) : List Nat :=
  ((Game.ram_in_buf g ⟨[], Game.ram_size g⟩).getD ⟨[], 0⟩).data

/-- `Game::legal_action_set`: query `getLegalActionSize`, allocate a
`Vec<c_int>` of that capacity, let `getLegalActionSet` fill it,
`set_len(size)`, and convert element-wise into `Action`s. -/
def Game.legal_action_set (g : Game) : List Action :=
  let size := getLegalActionSize g.ale.emu
  let buf := (memWrite g.ale.emu.legalActs (List.replicate size 0)).take size
  buf.map Action.mk

/-- `Game::minimal_action_set`. -/
def Game.minimal_action_set (g : Game) : List Action :=
  let size := getMinimalActionSize g.ale.emu
  let buf := (memWrite g.ale.emu.minimalActs (List.replicate size 0)).take size
  buf.map Action.mk

/-- `Game::save_screen_png`: the file name is marshalled through
`CString::new(..).unwrap()` and handed to the native `saveScreenPNG`
unchanged; the result records the C string the native call received. -/
def Game.save_screen_png (_g : Game) (file_name : String) : Option String :=
  if hasNul file_name then none
  else some file_name

/-! ### Save-state handles

`fn clone_state(&self) -> AleState` borrows the game immutably; the model
returns the borrowed game alongside the snapshot to make the frame
condition explicit.  Likewise `restore_from_cloned_state(&mut self,
s: &AleState)` borrows the snapshot immutably, so the model returns it
unchanged next to the mutated game. -/

/-- `pub struct AleState { s: *mut CAleState }`: exclusive owner of one
native snapshot handle produced by `cloneState`. -/
structure AleState where
  st : DynState
  deriving DecidableEq

/-- `pub struct AleSystemState`: exclusive owner of one native snapshot
handle produced by `cloneSystemState` (full machine state). -/
structure AleSystemState where
  st : EmuState
  deriving DecidableEq

/-- `Game::clone_state` (`cloneState(self.ale.p)`). -/
def Game.clone_state (g : Game) : AleState × Game :=
  (⟨g.ale.emu.dynOf⟩, g)

/-- `Game::clone_system_state` (`cloneSystemState(self.ale.p)`). -/
def Game.clone_system_state (g : Game) : AleSystemState × Game :=
  (⟨g.ale.emu⟩, g)

/-- `Game::restore_from_cloned_state` (`restoreState(self.ale.p, s.s)`). -/
def Game.restore_from_cloned_state (g : Game) (s : AleState) : Game × AleState :=
  (⟨⟨g.ale.emu.restoreDyn s.st⟩, g.rom_path⟩, s)

/-- `Game::restore_from_cloned_system_state`
(`restoreSystemState(self.ale.p, s.s)`: the full machine state is
replaced by the snapshot). -/
def Game.restore_from_cloned_system_state (g : Game) (s : AleSystemState) :
    Game × AleSystemState :=
  (⟨⟨s.st⟩, g.rom_path⟩, s)

/-- Native calls a save-state destructor can make. -/
inductive StEv : Type where
  | deleteState
  deriving DecidableEq

/-- `impl Drop for AleState`: the destructor makes exactly one
`deleteState` call on the owned snapshot handle. -/
def AleState.drop (_s : AleState) : List StEv := [StEv.deleteState]

/-- `impl Drop for AleSystemState`. -/
def AleSystemState.drop (_s : AleSystemState) : List StEv := [StEv.deleteState]

/-! ### Serialization adapter (`Encodable`/`Decodable` for `Game`)

`rustc_serialize` is the host's generic structured-encoding interface;
the encoded stream is modelled as the ordered list of records the
encoder receives.  The native save-state byte format (the `Vec<i8>`
produced by `encodeStateLen`/`encodeState` and inverted by
`decodeState`) is an opaque blob this layer never inspects; the model
carries the blob by its denotation, the snapshot it serializes. -/

/-- The opaque native byte serialization of a system-state snapshot. -/
structure StateBlob where
  st : EmuState
  deriving DecidableEq

/-- `fn encode_state(s: *mut CAleState) -> Vec<i8>`: query
`encodeStateLen`, allocate exactly that many bytes, `set_len`, fill with
`encodeState`. -/
def encode_state (s : AleSystemState) : StateBlob := ⟨s.st⟩

/-- `fn decode_state(serialized: &Vec<i8>) -> *mut CAleState`
(`decodeState(ptr, len)`). -/
def decode_state (b : StateBlob) : AleSystemState := ⟨b.st⟩

/-- One record handed to (or read from) the structured encoder: a string
(`String::encode`), a byte vector (`Vec::<u8>::encode`), or a native
state blob (`AleSystemState::encode`, itself a `Vec<i8>`). -/
inductive Rec : Type where
  | rstr (s : String)
  | rbytes (b : List Nat)
  | rstate (b : StateBlob)
  deriving DecidableEq

/-- `impl Encodable for Game`: encode the ROM path, then the ROM file
bytes read synchronously from disk (`File::open(..).expect(..)` /
`read_to_end(..).expect(..)` — an unreadable file is a panic, modelled
`none`, not an encoder error), then the cloned full system state. -/
def Game.encode (fs : FS) (g : Game) : Option (List Rec) :=
  match fsRead fs g.rom_path with
  | none => none
  | some buf =>
    some [Rec.rstr g.rom_path, Rec.rbytes buf,
          Rec.rstate (encode_state (Game.clone_system_state g).1)]

/-- `impl Decodable for Game`: read the ROM path and the ROM bytes; if no
file exists at the path, create it from the embedded bytes
(`File::create` + `write_all`, an existing file is left untouched);
construct a fresh `ALE` (panics — `none` — if an instance is live),
`load_rom` at the path, decode the system state and restore it into the
resulting game.  A stream not of the expected shape is a propagated
decoder error (`none`). -/
def Game.decode (flag : Bool) (fs : FS) (recs : List Rec) : Option (FS × Game) :=
  match recs with
  | Rec.rstr path :: Rec.rbytes fileData :: Rec.rstate blob :: _ =>
    let fs1 := if fsExists fs path then fs else fsWrite fs path fileData
    match ALE.new flag with
    | none => none
    | some (_, a) =>
      match ALE.load_rom fs1 a path with
      | none => none
      | some g0 =>
        some (fs1, (Game.restore_from_cloned_system_state g0 (decode_state blob)).1)
  | _ => none

/-! ### Single-threaded lifecycle traces (`ALE::new` / `impl Drop for ALE`)

A trace of constructions and destructions of engine sessions on one
thread, with the process-wide `INSTANCE_EXISTS` flag and the number of
live native handles made explicit.  Each step also pushes the native
calls it makes onto an event log (most recent event first). -/

/-- A lifecycle operation: construct an `ALE` (`ALE::new`) or drop a live
one (`<ALE as Drop>::drop`, also reached when a `Game` owning it is
dropped). -/
inductive AleOp : Type where
  | opNew
  | opDrop
  deriving DecidableEq

/-- Observable lifecycle events: a successful `ALE_new`, a native
`ALE_del` handle release, and the `INSTANCE_EXISTS.store(false, Relaxed)`
flag clear. -/
inductive Ev : Type where
  | evNew
  | evDel
  | evClear
  deriving DecidableEq

/-- Process state: the `INSTANCE_EXISTS` flag, the number of live native
handles (each owned by an `ALE`, possibly inside a `Game`), and the event
log, most recent first. -/
structure Proc where
  flag : Bool
  live : Nat
  log : List Ev
  deriving DecidableEq

/-- Process start: flag clear (`ATOMIC_BOOL_INIT`), nothing live. -/
def procInit : Proc := ⟨false, 0, []⟩

/-- One lifecycle step.  `opNew` is
`assert!(!INSTANCE_EXISTS.swap(true, SeqCst))` followed by `ALE_new`: if
the flag was already set the assertion fails (a panic, modelled `none`)
and no second instance is returned.  `opDrop` (well-formed only when an
instance is live) is `ALE_del(self.p)` followed by
`INSTANCE_EXISTS.store(false, Relaxed)`, in that order. -/
def stepOp (p : Proc) : AleOp → Option Proc
  | AleOp.opNew =>
    if p.flag then none
    else some ⟨true, p.live + 1, Ev.evNew :: p.log⟩
  | AleOp.opDrop =>
    match p.live with
    | 0 => none
    | Nat.succ n => some ⟨false, n, Ev.evClear :: Ev.evDel :: p.log⟩

/-- Run a trace of lifecycle operations. -/
def runOps : List AleOp → Proc → Option Proc
  | [], p => some p
  | o :: os, p =>
    match stepOp p o with
    | none => none
    | some q => runOps os q

/-- In a log kept most-recent-first, every flag clear is immediately
preceded (chronologically) by a native handle release. -/
def delBeforeClear : List Ev → Bool
  | [] => true
  | [Ev.evClear] => false
  | Ev.evClear :: e :: rest => (e == Ev.evDel) && delBeforeClear (e :: rest)
  | _ :: rest => delBeforeClear rest

/-- The singleton invariant: never more than one live native handle, and
the `INSTANCE_EXISTS` flag is set exactly while one is live. -/
def procInv (p : Proc) : Prop :=
  p.live ≤ 1 ∧ (p.flag = true ↔ p.live = 1)

/-! ### Concrete fixtures used by the witnesses -/

/-- A ROM path free of NUL bytes. -/
def wpath : String := "pong.bin"

/-- A string containing a NUL byte. -/
def wnul : String := "a\x00b"

/-- A configuration value free of NUL bytes. -/
def wval : String := "v"

/-- A small but fully populated engine state. -/
def wemu : EmuState :=
  { emuInit with
    frame := 5, livesLeft := 3, width := 2, height := 2,
    screenPix := [9, 9, 9, 9], screenRgbPix := [4, 4, 4, 4],
    ramBytes := [1, 2, 3], legalActs := [0, 1, 3], minimalActs := [0, 1] }

/-- A game session over `wemu` with ROM path `wpath`. -/
def wgame : Game := ⟨⟨wemu⟩, wpath⟩

/-- A file system holding the ROM file at `wpath`. -/
def wfs : FS := [(wpath, [1, 2])]

/-- An engine whose string table answers `wpath` with a byte that is not
valid UTF-8. -/
def wConfAle : ALE := ⟨{ emuInit with sConf := [(wpath, [255])] }⟩

/-- An engine with a 10×10 screen and 100 bytes of RAM, used to exercise
the `_in_buf` reservation arithmetic. -/
def bugEmu : EmuState :=
  { emuInit with
    width := 10, height := 10,
    screenPix := List.replicate 100 7, ramBytes := List.replicate 100 1 }

/-- The game session whose buffers are 100 bytes. -/
def bugGame : Game := ⟨⟨bugEmu⟩, wpath⟩

/-! ## Helper lemmas -/

theorem length_memWrite {α : Type} (src mem : List α) :
    (memWrite src mem).length = max src.length mem.length := by
  unfold memWrite
  rw [List.length_append, List.length_drop]
  omega

theorem stepOp_inv {p q : Proc} {o : AleOp} (hp : procInv p)
    (h : stepOp p o = some q) : procInv q := by
  obtain ⟨h1, h2⟩ := hp
  cases o with
  | opNew =>
    by_cases hf : p.flag = true
    · simp [stepOp, hf] at h
    · have hf2 : p.flag = false := by simpa using hf
      have hl : p.live = 0 := by
        have : ¬p.live = 1 := fun hc => by simp [h2.mpr hc] at hf2
        omega
      simp [stepOp, hf2] at h
      subst h
      exact ⟨by simp [hl], by simp [hl]⟩
  | opDrop =>
    cases hl : p.live with
    | zero => simp [stepOp, hl] at h
    | succ n =>
      simp [stepOp, hl] at h
      subst h
      have hn : n = 0 := by omega
      exact ⟨by simp [hn], by simp [hn]⟩

theorem runOps_preserve (Inv : Proc → Prop)
    (hstep : ∀ p q o, Inv p → stepOp p o = some q → Inv q) :
    ∀ ops p q, Inv p → runOps ops p = some q → Inv q := by
  intro ops
  induction ops with
  | nil =>
    intro p q hp h
    simp only [runOps] at h
    cases h
    exact hp
  | cons o os ih =>
    intro p q hp h
    simp only [runOps] at h
    cases hs : stepOp p o with
    | none => rw [hs] at h; simp at h
    | some r =>
      rw [hs] at h
      exact ih r q (hstep p r o hp hs) h

theorem delBeforeClear_new (l : List Ev) :
    delBeforeClear (Ev.evNew :: l) = delBeforeClear l := rfl

theorem delBeforeClear_del (l : List Ev) :
    delBeforeClear (Ev.evDel :: l) = delBeforeClear l := rfl

theorem delBeforeClear_clear_del (l : List Ev) :
    delBeforeClear (Ev.evClear :: Ev.evDel :: l) = delBeforeClear l := by
  have h1 : delBeforeClear (Ev.evClear :: Ev.evDel :: l)
      = ((Ev.evDel == Ev.evDel) && delBeforeClear (Ev.evDel :: l)) := rfl
  rw [h1, delBeforeClear_del]
  simp

theorem stepOp_log {p q : Proc} {o : AleOp}
    (hp : delBeforeClear p.log = true) (h : stepOp p o = some q) :
    delBeforeClear q.log = true := by
  cases o with
  | opNew =>
    by_cases hf : p.flag = true
    · simp [stepOp, hf] at h
    · have hf2 : p.flag = false := by simpa using hf
      simp [stepOp, hf2] at h
      subst h
      rw [delBeforeClear_new]
      exact hp
  | opDrop =>
    cases hl : p.live with
    | zero => simp [stepOp, hl] at h
    | succ n =>
      simp [stepOp, hl] at h
      subst h
      rw [delBeforeClear_clear_del]
      exact hp

/-! ## The claims -/

/-- Claim C1: for every sequence of `ALE` constructions and destructions
on a single thread, at most one `ALE` (or `Game` owning it) is live at
any instant; `ALE::new` test-and-sets the process-wide `INSTANCE_EXISTS`
flag, and when the flag was already set the construction fails fatally
(the `assert!` panics, modelled as `stepOp _ opNew = none`) rather than
returning a second instance. -/
theorem c1_single_instance (ops : List AleOp) (q : Proc)
    (h : runOps ops procInit = some q) :
    q.live ≤ 1 ∧ (q.flag = true ↔ q.live = 1) ∧
      (q.flag = true → stepOp q AleOp.opNew = none) := by
  have hinv : procInv q :=
    runOps_preserve procInv (fun p q o hp hs => stepOp_inv hp hs) ops procInit q
      ⟨by simp [procInit], by simp [procInit]⟩ h
  refine ⟨hinv.1, hinv.2, fun hf => ?_⟩
  simp [stepOp, hf]

theorem c1_single_instance_witness :
    Proc.live ⟨true, 1, [Ev.evNew]⟩ ≤ 1 ∧
      stepOp ⟨true, 1, [Ev.evNew]⟩ AleOp.opNew = none := by
  have h := c1_single_instance [AleOp.opNew] ⟨true, 1, [Ev.evNew]⟩ rfl
  exact ⟨h.1, h.2.2 rfl⟩

/-- Claim C8: when an `ALE` is dropped, the native handle release
(`ALE_del`) happens first and the `INSTANCE_EXISTS` flag is cleared only
afterwards: in the log of every completed trace (most recent event
first), every `evClear` is immediately preceded chronologically by an
`evDel`. -/
theorem c8_del_before_clear (ops : List AleOp) (q : Proc)
    (h : runOps ops procInit = some q) :
    delBeforeClear q.log = true :=
  runOps_preserve (fun p => delBeforeClear p.log = true)
    (fun _ _ _ hp hs => stepOp_log hp hs) ops procInit q rfl h

theorem c8_del_before_clear_witness :
    delBeforeClear [Ev.evClear, Ev.evDel, Ev.evNew] = true :=
  c8_del_before_clear [AleOp.opNew, AleOp.opDrop]
    ⟨false, 0, [Ev.evClear, Ev.evDel, Ev.evNew]⟩ rfl

/-- Claim C2: `clone_state()` followed immediately by
`restore_from_cloned_state()` on the same `Game` leaves `frame_number()`,
`lives()`, `ram()` and `screen()` unchanged. -/
theorem c2_clone_restore_roundtrip (g : Game) :
    Game.frame_number (Game.restore_from_cloned_state (Game.clone_state g).2
        (Game.clone_state g).1).1 = Game.frame_number g ∧
    Game.lives (Game.restore_from_cloned_state (Game.clone_state g).2
        (Game.clone_state g).1).1 = Game.lives g ∧
    Game.ram (Game.restore_from_cloned_state (Game.clone_state g).2
        (Game.clone_state g).1).1 = Game.ram g ∧
    Game.screen (Game.restore_from_cloned_state (Game.clone_state g).2
        (Game.clone_state g).1).1 = Game.screen g :=
  ⟨rfl, rfl, rfl, rfl⟩

/-- Claim C9: `clone_state`/`clone_system_state` borrow the game and do
not mutate it; `restore_from_cloned_state`/`restore_from_cloned_system_state`
borrow the snapshot and neither consume nor invalidate it, so the same
snapshot restores any number of times (a second restore of the same
snapshot is a no-op on the game); and a snapshot's destructor frees its
native handle exactly once. -/
theorem c9_borrowed_snapshots (g : Game) (s : AleState) (t : AleSystemState) :
    (Game.clone_state g).2 = g ∧
    (Game.clone_system_state g).2 = g ∧
    (Game.restore_from_cloned_state g s).2 = s ∧
    (Game.restore_from_cloned_system_state g t).2 = t ∧
    (Game.restore_from_cloned_state (Game.restore_from_cloned_state g s).1 s).1
      = (Game.restore_from_cloned_state g s).1 ∧
    (Game.restore_from_cloned_system_state
        (Game.restore_from_cloned_system_state g t).1 t).1
      = (Game.restore_from_cloned_system_state g t).1 ∧
    AleState.drop s = [StEv.deleteState] ∧
    AleSystemState.drop t = [StEv.deleteState] :=
  ⟨rfl, rfl, rfl, rfl, rfl, rfl, rfl, rfl⟩

/-- Claim C7: `legal_action_set()` (and `minimal_action_set()`) returns a
vector whose length equals exactly the size reported by the corresponding
size query made at the start of the call: the reported size is the
allocated capacity, and `set_len` pins the final length to it. -/
theorem c7_action_set_sizes (g : Game) :
    (Game.legal_action_set g).length = getLegalActionSize g.ale.emu ∧
    (Game.minimal_action_set g).length = getMinimalActionSize g.ale.emu := by
  constructor <;>
    simp [Game.legal_action_set, Game.minimal_action_set, List.length_map,
      List.length_take, length_memWrite, List.length_replicate,
      getLegalActionSize, getMinimalActionSize]

/-- Claim C5: encoding a `Game` writes exactly three records in order —
the ROM path string, the full ROM file contents read synchronously from
disk, and the game's full system save-state — and an unreadable ROM file
makes encoding abort fatally (a panic, modelled `none`; it is not
surfaced as an encoder error value). -/
theorem c5_encode_records (fs : FS) (g : Game) :
    (∀ b, fsRead fs g.rom_path = some b →
      Game.encode fs g =
        some [Rec.rstr g.rom_path, Rec.rbytes b,
              Rec.rstate (encode_state (Game.clone_system_state g).1)]) ∧
    (fsRead fs g.rom_path = none → Game.encode fs g = none) := by
  constructor
  · intro b hb
    simp [Game.encode, hb]
  · intro hb
    simp [Game.encode, hb]

theorem c5_encode_records_witness :
    Game.encode wfs wgame
      = some [Rec.rstr wpath, Rec.rbytes [1, 2], Rec.rstate ⟨wemu⟩] :=
  (c5_encode_records wfs wgame).1 [1, 2] (by decide)

/-- Claim C4: decoding a persisted `Game` reads the ROM path and ROM
bytes and writes the embedded bytes to the path if and only if no file
exists there (an existing file is left untouched — the file system is
returned unchanged, never overwritten or compared); it then constructs a
fresh `ALE`, loads the ROM at that path, and restores the decoded system
state into the resulting game, whose engine state is exactly the decoded
snapshot and whose `rom_path` is the decoded path. -/
theorem c4_decode_behavior (fs : FS) (path : String) (fileData : List Nat)
    (blob : StateBlob) (rest : List Rec) (hnul : hasNul path = false) :
    (fsExists fs path = true →
      Game.decode false fs
          (Rec.rstr path :: Rec.rbytes fileData :: Rec.rstate blob :: rest)
        = some (fs, ⟨⟨blob.st⟩, path⟩)) ∧
    (fsExists fs path = false →
      Game.decode false fs
          (Rec.rstr path :: Rec.rbytes fileData :: Rec.rstate blob :: rest)
        = some (fsWrite fs path fileData, ⟨⟨blob.st⟩, path⟩)) := by
  constructor
  · intro hex
    obtain ⟨r, hr⟩ := Option.isSome_iff_exists.mp (by simpa [fsExists] using hex)
    simp [Game.decode, ALE.new, ALE.load_rom, hnul, hex, hr,
      Game.restore_from_cloned_system_state, decode_state]
  · intro hex
    have hr : fsRead ((path, fileData) :: fs) path = some fileData := by
      simp [fsRead]
    simp [Game.decode, ALE.new, ALE.load_rom, hnul, hex, hr, fsWrite,
      Game.restore_from_cloned_system_state, decode_state]

theorem c4_decode_behavior_witness :
    Game.decode false [] [Rec.rstr wpath, Rec.rbytes [7], Rec.rstate ⟨wemu⟩]
      = some ([(wpath, [7])], ⟨⟨wemu⟩, wpath⟩) :=
  (c4_decode_behavior [] wpath [7] ⟨wemu⟩ [] (by decide)).2 (by decide)

/-- Claim C3: encoding a `Game` and decoding the resulting records (in a
world with no live engine instance) produces a game whose `ram()`,
`screen()`, `frame_number()` and `lives()` equal those of the original at
the moment of encoding, whether the ROM file is still present in the
decode-time file system or absent (and then recreated from the embedded
bytes). -/
theorem c3_encode_decode_roundtrip (fs fs2 : FS) (g : Game) (recs : List Rec)
    (hnul : hasNul g.rom_path = false)
    (henc : Game.encode fs g = some recs) :
    ∃ fs3 g2, Game.decode false fs2 recs = some (fs3, g2) ∧
      Game.ram g2 = Game.ram g ∧ Game.screen g2 = Game.screen g ∧
      Game.frame_number g2 = Game.frame_number g ∧
      Game.lives g2 = Game.lives g := by
  cases hr : fsRead fs g.rom_path with
  | none => simp [Game.encode, hr] at henc
  | some buf =>
    simp [Game.encode, hr] at henc
    subst henc
    cases hex : fsExists fs2 g.rom_path with
    | true =>
      obtain ⟨r, hr2⟩ := Option.isSome_iff_exists.mp (by simpa [fsExists] using hex)
      refine ⟨fs2, g, ?_, rfl, rfl, rfl, rfl⟩
      simp [Game.decode, ALE.new, ALE.load_rom, hnul, hex, hr2,
        Game.restore_from_cloned_system_state, decode_state, encode_state,
        Game.clone_system_state]
    | false =>
      have hr2 : fsRead (fsWrite fs2 g.rom_path buf) g.rom_path = some buf := by
        simp [fsRead, fsWrite]
      refine ⟨fsWrite fs2 g.rom_path buf, g, ?_, rfl, rfl, rfl, rfl⟩
      simp [Game.decode, ALE.new, ALE.load_rom, hnul, hex, hr2,
        Game.restore_from_cloned_system_state, decode_state, encode_state,
        Game.clone_system_state]

theorem c3_encode_decode_roundtrip_witness :
    ∃ fs3 g2,
      Game.decode false []
          [Rec.rstr wpath, Rec.rbytes [1, 2], Rec.rstate ⟨wemu⟩]
        = some (fs3, g2) ∧
      Game.ram g2 = Game.ram wgame ∧ Game.screen g2 = Game.screen wgame ∧
      Game.frame_number g2 = Game.frame_number wgame ∧
      Game.lives g2 = Game.lives wgame :=
  c3_encode_decode_roundtrip wfs [] wgame
    [Rec.rstr wpath, Rec.rbytes [1, 2], Rec.rstate ⟨wemu⟩]
    (by decide) (by decide)

/-- Claim C6 (the code violates it): at the failing input — a caller
buffer of capacity 10 and logical length 0, against a 10×10 screen — the
source's `reserve_exact(needed - capacity)` only guarantees capacity
`len + (needed - capacity) = 90 < 100` (Rust's `reserve_exact(additional)`
contract is capacity ≥ `len + additional`), after which `set_len(100)`
violates the `set_len` safety precondition and the native fill overflows
the allocation (modelled as the `none` branch of `setLenFill`); the same
arithmetic slip is in `ram_in_buf`.  The plain `screen()` path, which
allocates its own buffer, does return exactly `width*height` bytes. -/
theorem c6_in_buf_reserve_bug :
    ByteBuf.reserveExact ⟨[], 10⟩ 90 = ⟨[], 90⟩ ∧
    Game.screen_in_buf bugGame ⟨[], 10⟩ = none ∧
    Game.ram_in_buf bugGame ⟨[], 10⟩ = none ∧
    (Game.screen bugGame).length = 100 ∧
    (Game.ram bugGame).length = 100 := by
  decide

/-- Claim C10: every public operation taking a string argument panics
(`none`) exactly when the string's byte representation contains a NUL
byte (`get_string` additionally when the engine's reply is not valid
UTF-8), and NUL-free strings are passed through to the native layer
unchanged. -/
theorem c10_cstring_marshalling (a : ALE) (fs : FS) (g : Game)
    (key val name : String) (bv : Bool) (iv : Int) (fv : Nat) :
    (ALE.get_string a key = none ↔
      (hasNul key = true ∨
        validUtf8 (cstrBytes (lookupD a.emu.sConf key [])) = false)) ∧
    (ALE.get_bool a key = none ↔ hasNul key = true) ∧
    (ALE.get_int a key = none ↔ hasNul key = true) ∧
    (ALE.get_float a key = none ↔ hasNul key = true) ∧
    (ALE.set_string a key val = none ↔
      (hasNul key = true ∨ hasNul val = true)) ∧
    (ALE.set_bool a key bv = none ↔ hasNul key = true) ∧
    (ALE.set_int a key iv = none ↔ hasNul key = true) ∧
    (ALE.set_float a key fv = none ↔ hasNul key = true) ∧
    (hasNul name = true → ALE.load_rom fs a name = none) ∧
    (∀ g2, ALE.load_rom fs a name = some g2 → g2.rom_path = name) ∧
    (Game.save_screen_png g name = none ↔ hasNul name = true) ∧
    (hasNul key = false → hasNul val = false →
      ALE.set_string a key val
        = some ⟨{ a.emu with sConf := (key, strBytes val) :: a.emu.sConf }⟩) := by
  refine ⟨?_, ?_, ?_, ?_, ?_, ?_, ?_, ?_, ?_, ?_, ?_, ?_⟩
  · by_cases hk : hasNul key = true
    · simp [ALE.get_string, hk]
    · have hk2 : hasNul key = false := by simpa using hk
      by_cases hv : validUtf8 (cstrBytes (lookupD a.emu.sConf key [])) = true
      · simp [ALE.get_string, hk2, hv]
      · have hv2 : validUtf8 (cstrBytes (lookupD a.emu.sConf key [])) = false := by
          simpa using hv
        simp [ALE.get_string, hk2, hv2]
  · by_cases hk : hasNul key = true <;> simp [ALE.get_bool, hk]
  · by_cases hk : hasNul key = true <;> simp [ALE.get_int, hk]
  · by_cases hk : hasNul key = true <;> simp [ALE.get_float, hk]
  · by_cases hk : hasNul key = true
    · simp [ALE.set_string, hk]
    · have hk2 : hasNul key = false := by simpa using hk
      by_cases hv : hasNul val = true
      · simp [ALE.set_string, hk2, hv]
      · have hv2 : hasNul val = false := by simpa using hv
        simp [ALE.set_string, hk2, hv2]
  · by_cases hk : hasNul key = true <;> simp [ALE.set_bool, hk]
  · by_cases hk : hasNul key = true <;> simp [ALE.set_int, hk]
  · by_cases hk : hasNul key = true <;> simp [ALE.set_float, hk]
  · intro hn
    simp [ALE.load_rom, hn]
  · intro g2 h
    by_cases hn : hasNul name = true
    · simp [ALE.load_rom, hn] at h
    · have hn2 : hasNul name = false := by simpa using hn
      cases hrom : fsRead fs name with
      | none => simp [ALE.load_rom, hn2, hrom] at h
      | some rom =>
        simp [ALE.load_rom, hn2, hrom] at h
        subst h
        rfl
  · by_cases hn : hasNul name = true <;> simp [Game.save_screen_png, hn]
  · intro hk hv
    simp [ALE.set_string, hk, hv]

theorem c10_cstring_marshalling_witness :
    ALE.get_string wConfAle wpath = none ∧
    ALE.get_bool wConfAle wnul = none ∧
    ALE.set_string wConfAle wpath wval
      = some ⟨{ wConfAle.emu with
                sConf := (wpath, strBytes wval) :: wConfAle.emu.sConf }⟩ := by
  obtain ⟨h1, -, -, -, -, -, -, -, -, -, -, hset⟩ :=
    c10_cstring_marshalling wConfAle [] wgame wpath wval wpath true 0 0
  obtain ⟨-, h2, -, -, -, -, -, -, -, -, -, -⟩ :=
    c10_cstring_marshalling wConfAle [] wgame wnul wval wnul true 0 0
  exact ⟨h1.mpr (Or.inr (by decide)), h2.mpr (by decide),
    hset (by decide) (by decide)⟩

end Ale
